import Mathlib

/-!
Verification of the AutoTutor repository-traversal core (github-client),
the JSON-response parser of the code analyzer, and the Lambda handler's
resource-cleanup behaviour.

The JavaScript source is shallowly embedded: directory trees are explicit
values, the recursive walk is a pure accumulator-passing function exactly
mirroring `_walkDirectory`, JavaScript's stable `Array.prototype.sort`
(stable since ES2019, and Node 18 is required by package.json) is modelled
by a stable insertion sort on the same comparator, and fallible filesystem
reads are modelled by a view function into an abstract file store.
-/

/-! ## Path helpers (Node's path.basename / path.extname / path.join) -/

/-- Characters of the last path segment: `path.basename` on the character
list (our paths never end in a slash). -/
def basenameChars (cs : List Char) : List Char :=
  (cs.reverse.takeWhile (fun c => c ≠ '/')).reverse

/-- Node's `path.basename` for slash-separated relative paths. -/
def basename (p : String) : String := String.mk (basenameChars p.data)

/-- Node's `path.extname`: from the last dot of the basename to the end;
empty when the basename has no dot or starts with its only dot. -/
def extnameChars (cs : List Char) : List Char :=
  let base := basenameChars cs
  let tailRev := base.reverse.takeWhile (fun c => c ≠ '.')
  if tailRev.length = base.length then []
  else if tailRev.length + 1 = base.length then []
  else '.' :: tailRev.reverse

/-- Node's `path.extname` on strings. -/
def extname (p : String) : String := String.mk (extnameChars p.data)

/-- `String.toLowerCase` of JavaScript, restricted to the per-character
lowering Lean's `Char.toLower` performs (ASCII paths in every claim). -/
def lowerStr (s : String) : String := String.mk (s.data.map Char.toLower)

/-- `path.join(relativePath, item)` for the walk's two-argument uses:
joining with a slash, where joining onto the empty root yields the item
itself (Node: path.join("", "x") = "x"). -/
def joinRel (rel name : String) : String :=
  if rel = "" then name else rel ++ "/" ++ name

/-- Split a relative path into its slash-separated segments (character
level helper). -/
def splitSegs : List Char → List (List Char)
  | [] => [[]]
  | c :: cs =>
    match splitSegs cs with
    | [] => [[]]
    | s :: rest => if c = '/' then [] :: s :: rest else (c :: s) :: rest

/-- Segments of a relative path; the empty path has no segments. -/
def splitPath (p : String) : List String :=
  if p = "" then [] else (splitSegs p.data).map String.mk

/-- Suffix test on strings via their character lists. -/
def endsWithStr (s suffix : String) : Bool := suffix.data.isSuffixOf s.data

/-! ## Data model of the traversal (github-client.js) -/

/-- One recorded file of the traversal: the object `_walkDirectory` pushes
onto `files` ({name, path, directory, size, extension}). -/
structure FileEntry where
  name : String
  path : String
  directory : String
  size : Nat
  extension : String
deriving DecidableEq, Repr

/-- The `languages` accumulator: a JavaScript object, i.e. an
insertion-ordered association list from language label to count. -/
abbrev Langs := List (String × Nat)

/-! A directory tree as the walk observes it. `badStat` is an entry whose
`fs.stat` call throws (the per-entry metadata lookup fails); `file` carries
the stat size and the UTF-8 text `fs.readFile` would yield. -/
mutual
inductive FSNode where
  | file (name : String) (size : Nat) (content : String)
  | badStat (name : String)
  | dir (name : String) (children : FSNodes)
inductive FSNodes where
  | nil
  | cons (head : FSNode) (tail : FSNodes)
end

/-- The `readdir` name of an entry. -/
def nodeName : FSNode → String
  | .file n _ _ => n
  | .badStat n => n
  | .dir n _ => n

/-- Append on the mutual list of tree entries. -/
def appFS : FSNodes → FSNodes → FSNodes
  | .nil, ys => ys
  | .cons x xs, ys => .cons x (appFS xs ys)

mutual
/-- Structural size of one tree entry (termination measure for walk lemmas). -/
def sizeNode : FSNode → Nat
  | .file _ _ _ => 1
  | .badStat _ => 1
  | .dir _ sub => 1 + sizeNodes sub
/-- Structural size of an entry list. -/
def sizeNodes : FSNodes → Nat
  | .nil => 0
  | .cons n rest => sizeNode n + sizeNodes rest
end

/-- A readdir name is well formed: nonempty and without a slash (what the
operating system guarantees for directory entries). -/
def wfName (n : String) : Bool := decide (n ≠ "" ∧ '/' ∉ n.data)

mutual
/-- All names in one entry are well formed. -/
def wfNode : FSNode → Bool
  | .file n _ _ => wfName n
  | .badStat n => wfName n
  | .dir n sub => wfName n && wfNodes sub
/-- All names in an entry list are well formed. -/
def wfNodes : FSNodes → Bool
  | .nil => true
  | .cons n rest => wfNode n && wfNodes rest
end

/-! ## Extension tables (github-client.js `_getLanguageFromExtension`,
`_isBinaryFile`, `_getFileImportance`) -/

/-- The closed extension-to-language table of `_getLanguageFromExtension`. -/
def langMap : List (String × String) :=
  [(".js", "JavaScript"), (".ts", "TypeScript"), (".py", "Python"),
   (".java", "Java"), (".cpp", "C++"), (".c", "C"), (".cs", "C#"),
   (".php", "PHP"), (".rb", "Ruby"), (".go", "Go"), (".rs", "Rust"),
   (".swift", "Swift"), (".kt", "Kotlin"), (".scala", "Scala"),
   (".html", "HTML"), (".css", "CSS"), (".json", "JSON"), (".xml", "XML"),
   (".yaml", "YAML"), (".yml", "YAML")]

/-- `_getLanguageFromExtension`: `langMap[ext] || null`. -/
def getLanguageFromExtension (ext : String) : Option String :=
  langMap.lookup ext

/-- The closed binary-extension list of `_isBinaryFile`. -/
def binaryExts : List String :=
  [".jpg", ".jpeg", ".png", ".gif", ".bmp", ".ico", ".pdf", ".zip", ".tar",
   ".gz", ".rar", ".exe", ".dll", ".so", ".dylib", ".mp3", ".mp4", ".avi",
   ".mov"]

/-- `_isBinaryFile`: the lowercased extension is in the closed binary set. -/
def isBinaryFile (filePath : String) : Bool :=
  binaryExts.contains (lowerStr (extname filePath))

/-- The extension-score table of `_getFileImportance`. -/
def extScores : List (String × Nat) :=
  [(".js", 70), (".py", 70), (".ts", 70), (".json", 60), (".yaml", 60),
   (".yml", 60), (".md", 50), (".txt", 40), (".html", 30), (".css", 20)]

/-- `_getFileImportance`: filename rules first (readme 100, manifest 90,
entry point 80), then the extension table, else the floor 10.
(JavaScript's `extScores[ext] || 10` never sees a zero score, so the
lookup-with-default is exact.) -/
def getFileImportance (filePath : String) : Nat :=
  let fileName := lowerStr (basename filePath)
  if ["readme.md", "readme.txt", "readme"].contains fileName then 100
  else if ["package.json", "requirements.txt", "setup.py"].contains fileName then 90
  else if ["index.js", "main.py", "app.py", "server.js"].contains fileName then 80
  else ((extScores.lookup (lowerStr (extname filePath)))).getD 10

/-! ## The default ignore matcher (`_loadGitignore`) -/

/-- The default pattern names added by `_loadGitignore` that are literal
names (.git, node_modules, __pycache__, .DS_Store, dist, build). -/
def ignoredNames : List String :=
  [".git", "node_modules", "__pycache__", ".DS_Store", "dist", "build"]

/-- Whether one path segment matches a default pattern: a literal name, or
the globs *.pyc and *.log. -/
def segMatches (s : String) : Bool :=
  ignoredNames.contains s || endsWithStr s ".pyc" || endsWithStr s ".log"

/-- The `ignore` matcher built from the default patterns only (no repository
.gitignore): a gitignore pattern without a slash matches a path any of whose
segments matches it, and matching a directory segment ignores everything
below it. -/
def defaultIg (p : String) : Bool := (splitPath p).any segMatches

/-! ## The recursive walk (`_walkDirectory`) -/

/-- One recorded file object, as `_walkDirectory` builds it. -/
def mkEntry (name rel itemRel : String) (size : Nat) : FileEntry :=
  { name := name, path := itemRel, directory := rel, size := size,
    extension := lowerStr (extname name) }

/-- `languages[language] = (languages[language] || 0) + 1`: update the
count in place when the key exists, else append the key (JavaScript object
insertion order). -/
def bumpLang (langs : Langs) (l : String) : Langs :=
  if langs.any (fun p => p.1 = l) then
    langs.map (fun p => if p.1 = l then (p.1, p.2 + 1) else p)
  else langs ++ [(l, 1)]

/-- `_walkDirectory(dirPath, relativePath, files, languages, ig)`. The
accumulator pair is (files, languages), threaded exactly as the JavaScript
arrays/objects are mutated. An entry whose relative path the matcher
ignores is skipped without recursion. A `badStat` entry throws inside the
per-directory loop; the surrounding try/catch returns with the accumulator
as it stands, dropping the remaining entries of that directory only (a
recursive call has its own try/catch, so it never throws to its caller). -/
def walkDirectory (ig : String → Bool) (rel : String) :
    FSNodes → List FileEntry × Langs → List FileEntry × Langs
  | .nil, acc => acc
  | .cons n rest, acc =>
    let itemRel := joinRel rel (nodeName n)
    if ig itemRel then walkDirectory ig rel rest acc
    else
      match n with
      | .badStat _ => acc
      | .dir _ sub => walkDirectory ig rel rest (walkDirectory ig itemRel sub acc)
      | .file name size _ =>
        let lang := getLanguageFromExtension (lowerStr (extname name))
        let langs2 := match lang with
          | some l => bumpLang acc.2 l
          | none => acc.2
        walkDirectory ig rel rest (acc.1 ++ [mkEntry name rel itemRel size], langs2)

/-- The directories the walk recurses into (relative paths, in order),
mirroring `_walkDirectory`'s control flow including the abort on a failed
stat. -/
def walkVisited (ig : String → Bool) (rel : String) : FSNodes → List String
  | .nil => []
  | .cons n rest =>
    let itemRel := joinRel rel (nodeName n)
    if ig itemRel then walkVisited ig rel rest
    else
      match n with
      | .badStat _ => []
      | .dir _ sub => itemRel :: (walkVisited ig itemRel sub ++ walkVisited ig rel rest)
      | .file _ _ _ => walkVisited ig rel rest

/-- Accumulator-free description of the files the walk records, in
encounter order (proved equal to the accumulator-threading walk below). -/
def filesOf (ig : String → Bool) (rel : String) : FSNodes → List FileEntry
  | .nil => []
  | .cons n rest =>
    let itemRel := joinRel rel (nodeName n)
    if ig itemRel then filesOf ig rel rest
    else
      match n with
      | .badStat _ => []
      | .dir _ sub => filesOf ig itemRel sub ++ filesOf ig rel rest
      | .file name size _ => mkEntry name rel itemRel size :: filesOf ig rel rest

/-- Accumulator-free description of the recognized-language labels the walk
counts, in encounter order. -/
def langsOf (ig : String → Bool) (rel : String) : FSNodes → List String
  | .nil => []
  | .cons n rest =>
    let itemRel := joinRel rel (nodeName n)
    if ig itemRel then langsOf ig rel rest
    else
      match n with
      | .badStat _ => []
      | .dir _ sub => langsOf ig itemRel sub ++ langsOf ig rel rest
      | .file name _ _ =>
        match getLanguageFromExtension (lowerStr (extname name)) with
        | some l => l :: langsOf ig rel rest
        | none => langsOf ig rel rest

/-- Fold a sequence of recognized languages into a histogram. -/
def bumpAll (langs : Langs) (xs : List String) : Langs := xs.foldl bumpLang langs

/-! ## The two traversal entry points (`getFileStructure`, `getMainFiles`) -/

/-- Result object of `getFileStructure`: total_files, languages and the
files list capped at 100. -/
structure TraversalResult where
  total_files : Nat
  languages : Langs
  files : List FileEntry
deriving DecidableEq, Repr

/-- `getFileStructure` on a cloned tree: fresh accumulators, full walk,
`total_files` from the uncapped list, `files` capped at the first 100. The
ignore matcher is the one `_loadGitignore` builds for the repository. -/
def getFileStructure (ig : String → Bool) (t : FSNodes) : TraversalResult :=
  let r := walkDirectory ig "" t ([], [])
  { total_files := r.1.length, languages := r.2, files := r.1.take 100 }

/-- Stable insert for the descending importance order: the new element
goes in front of the first element whose score does not exceed it. -/
def insertByScoreDesc (x : String) : List String → List String
  | [] => [x]
  | y :: ys =>
    if getFileImportance y ≤ getFileImportance x then x :: y :: ys
    else y :: insertByScoreDesc x ys

/-- JavaScript's stable `sort((a, b) => imp(b) - imp(a))`: descending by
importance, ties keeping input order. Any stable sort realises the same
output list, so the insertion sort is the ECMAScript-mandated result. -/
def sortByScoreDesc : List String → List String
  | [] => []
  | x :: xs => insertByScoreDesc x (sortByScoreDesc xs)

/-- `getMainFiles` on a cloned tree: fresh walk (uncapped), map to paths,
stable sort descending by `_getFileImportance`, first 20. -/
def getMainFiles (ig : String → Bool) (t : FSNodes) : List String :=
  (sortByScoreDesc (((walkDirectory ig "" t ([], [])).1).map (fun f => f.path))).take 20

/-- The client object: its only state is `repoPath` (here: the cloned tree
it points to, or none before `cloneRepository`). -/
structure GitHubClient where
  repoPath : Option FSNodes

/-- `getFileStructure` as the method: throws "Repository not cloned yet"
without a repoPath, else walks with fresh accumulators and mutates no
client state. -/
def clientGetFileStructure (c : GitHubClient) (ig : String → Bool) :
    Except String TraversalResult :=
  match c.repoPath with
  | none => .error "Repository not cloned yet"
  | some t => .ok (getFileStructure ig t)

/-! ## The content loader (`readFileContent`) -/

/-- What the filesystem shows the loader for one relative path: the file is
absent, or present with a stat size and UTF-8 text, or its stat/read throws
(permission error, race). -/
inductive FileView where
  | absent
  | present (size : Nat) (content : String)
  | readFail
deriving DecidableEq, Repr

/-- `readFileContent(filePath, maxSize = 50000)`: null when the file does
not exist; null when stat's size strictly exceeds maxSize (logged skip);
null when `_isBinaryFile`; otherwise the UTF-8 text. The catch converts any
stat/read error into null, so no path throws. -/
def readFileContent (fsv : String → FileView) (filePath : String)
    (maxSize : Nat := 50000) : Option String :=
  match fsv filePath with
  | .absent => none
  | .readFail => none
  | .present size content =>
    if maxSize < size then none
    else if isBinaryFile filePath then none
    else some content

/-! ## The handler's content-map loop (tutorial-generator.js handler) -/

/-- The handler's loop over `mainFiles.slice(0, 50)`:
`if (content) fileContents[filePath] = content` — JavaScript truthiness
drops null and also the empty string. -/
def buildFileContents (fsv : String → FileView) (mainFiles : List String) :
    List (String × String) :=
  (mainFiles.take 50).foldl
    (fun acc fp =>
      match readFileContent fsv fp 50000 with
      | some c => if c = "" then acc else acc ++ [(fp, c)]
      | none => acc) []

/-! ## JSON values and a model of JSON.parse (strict JSON, RFC 8259) -/

/-- A parsed JSON value. Numbers keep their source lexeme (the analyzer
only passes parsed objects onward, never arithmetic on them). -/
inductive JsonValue where
  | null
  | bool (b : Bool)
  | num (lexeme : String)
  | str (s : String)
  | arr (elems : List JsonValue)
  | obj (fields : List (String × JsonValue))

/-- JSON insignificant whitespace. -/
def isJsonWs (c : Char) : Bool := c = ' ' || c = '\t' || c = '\n' || c = '\r'

/-- Drop leading JSON whitespace. -/
def skipWs (cs : List Char) : List Char := cs.dropWhile isJsonWs

/-- ASCII digit test. -/
def isDigitCh (c : Char) : Bool := '0' ≤ c && c ≤ '9'

/-- Hexadecimal digit value. -/
def hexVal (c : Char) : Option Nat :=
  if isDigitCh c then some (c.toNat - 48)
  else if 'a' ≤ c && c ≤ 'f' then some (c.toNat - 87)
  else if 'A' ≤ c && c ≤ 'F' then some (c.toNat - 55)
  else none

/-- Decode one string escape after the backslash. -/
def escDecode (e : Char) (rest : List Char) : Option (Char × List Char) :=
  if e = '"' then some ('"', rest)
  else if e = '\\' then some ('\\', rest)
  else if e = '/' then some ('/', rest)
  else if e = 'b' then some ('\x08', rest)
  else if e = 'f' then some ('\x0c', rest)
  else if e = 'n' then some ('\n', rest)
  else if e = 'r' then some ('\r', rest)
  else if e = 't' then some ('\t', rest)
  else if e = 'u' then
    match rest with
    | h1 :: h2 :: h3 :: h4 :: r2 =>
      match hexVal h1, hexVal h2, hexVal h3, hexVal h4 with
      | some a, some b, some c, some d =>
        some (Char.ofNat (((a * 16 + b) * 16 + c) * 16 + d), r2)
      | _, _, _, _ => none
    | _ => none
  else none

/-- The exponent part of a number lexeme (optional). -/
def numExpPart (lex cs : List Char) : Option (List Char × List Char) :=
  match cs with
  | c :: rest =>
    if c = 'e' || c = 'E' then
      let signAndRest : List Char × List Char :=
        match rest with
        | s :: r2 => if s = '+' || s = '-' then ([s], r2) else ([], rest)
        | [] => ([], rest)
      let ds := signAndRest.2.takeWhile isDigitCh
      if ds.isEmpty then none
      else some (lex ++ [c] ++ signAndRest.1 ++ ds, signAndRest.2.dropWhile isDigitCh)
    else some (lex, cs)
  | [] => some (lex, cs)

/-- The fraction part of a number lexeme (optional), then the exponent. -/
def numFracPart (lex cs : List Char) : Option (List Char × List Char) :=
  match cs with
  | c :: rest =>
    if c = '.' then
      let ds := rest.takeWhile isDigitCh
      if ds.isEmpty then none
      else numExpPart (lex ++ [c] ++ ds) (rest.dropWhile isDigitCh)
    else numExpPart lex cs
  | [] => numExpPart lex cs

/-- Lex one JSON number: -? (0 | [1-9][0-9]*) frac? exp?. -/
def parseNumberChars (cs : List Char) : Option (JsonValue × List Char) :=
  let negAndRest : List Char × List Char :=
    match cs with
    | c :: r => if c = '-' then ([c], r) else ([], cs)
    | [] => ([], cs)
  match negAndRest.2 with
  | c :: rest =>
    if c = '0' then
      (numFracPart (negAndRest.1 ++ [c]) rest).map
        (fun pr => (.num (String.mk pr.1), pr.2))
    else if isDigitCh c then
      let ds := negAndRest.2.takeWhile isDigitCh
      (numFracPart (negAndRest.1 ++ ds) (negAndRest.2.dropWhile isDigitCh)).map
        (fun pr => (.num (String.mk pr.1), pr.2))
    else none
  | [] => none

mutual
/-- Parse one JSON value (fuelled recursive descent; leading whitespace
already consumed). -/
def parseValueF : Nat → List Char → Option (JsonValue × List Char)
  | 0, _ => none
  | f + 1, cs =>
    match cs with
    | [] => none
    | c :: rest =>
      if c = '{' then
        let r1 := skipWs rest
        match r1 with
        | c2 :: r2 =>
          if c2 = '}' then some (.obj [], r2)
          else (parseMembersF f r1).map (fun pr => (.obj pr.1, pr.2))
        | [] => none
      else if c = '[' then
        let r1 := skipWs rest
        match r1 with
        | c2 :: r2 =>
          if c2 = ']' then some (.arr [], r2)
          else (parseElementsF f r1).map (fun pr => (.arr pr.1, pr.2))
        | [] => none
      else if c = '"' then
        (parseStringF f rest).map (fun pr => (.str pr.1, pr.2))
      else if c = 't' then
        match rest with
        | 'r' :: 'u' :: 'e' :: r2 => some (.bool true, r2)
        | _ => none
      else if c = 'f' then
        match rest with
        | 'a' :: 'l' :: 's' :: 'e' :: r2 => some (.bool false, r2)
        | _ => none
      else if c = 'n' then
        match rest with
        | 'u' :: 'l' :: 'l' :: r2 => some (.null, r2)
        | _ => none
      else parseNumberChars cs

/-- Parse the members of an object after its opening brace (at the first
key's quote; whitespace already consumed). -/
def parseMembersF : Nat → List Char → Option (List (String × JsonValue) × List Char)
  | 0, _ => none
  | f + 1, cs =>
    match cs with
    | c :: rest =>
      if c = '"' then
        match parseStringF f rest with
        | none => none
        | some (k, r1) =>
          match skipWs r1 with
          | c2 :: r2 =>
            if c2 = ':' then
              match parseValueF f (skipWs r2) with
              | none => none
              | some (v, r3) =>
                match skipWs r3 with
                | c3 :: r4 =>
                  if c3 = ',' then
                    (parseMembersF f (skipWs r4)).map
                      (fun pr => ((k, v) :: pr.1, pr.2))
                  else if c3 = '}' then some ([(k, v)], r4)
                  else none
                | [] => none
            else none
          | [] => none
      else none
    | [] => none

/-- Parse the elements of an array after its opening bracket. -/
def parseElementsF : Nat → List Char → Option (List JsonValue × List Char)
  | 0, _ => none
  | f + 1, cs =>
    match parseValueF f cs with
    | none => none
    | some (v, r1) =>
      match skipWs r1 with
      | c :: r2 =>
        if c = ',' then
          (parseElementsF f (skipWs r2)).map (fun pr => (v :: pr.1, pr.2))
        else if c = ']' then some ([v], r2)
        else none
      | [] => none

/-- Parse a JSON string after its opening quote, decoding escapes. -/
def parseStringF : Nat → List Char → Option (String × List Char)
  | 0, _ => none
  | f + 1, cs =>
    match cs with
    | [] => none
    | c :: rest =>
      if c = '"' then some ("", rest)
      else if c = '\\' then
        match rest with
        | e :: r2 =>
          match escDecode e r2 with
          | some (d, r3) =>
            (parseStringF f r3).map (fun pr => (String.mk (d :: pr.1.data), pr.2))
          | none => none
        | [] => none
      else if c.toNat < 32 then none
      else (parseStringF f rest).map (fun pr => (String.mk (c :: pr.1.data), pr.2))
end

/-- JSON.parse: whitespace, one value, whitespace, end of input. The fuel
bound 2·length + 2 exceeds the recursion depth on every input. -/
def jsonParse (s : String) : Option JsonValue :=
  let cs := skipWs s.data
  match parseValueF (2 * cs.length + 2) cs with
  | some (v, r) => if skipWs r = [] then some v else none
  | none => none

/-! ## The analyzer's JSON-response parser (`_parseJsonResponse`) -/

/-- The first match of the greedy regular expression /\{[\s\S]*\}/ in the
text: it starts at the first opening brace and, the quantifier being
greedy, extends to the last closing brace of the whole text; there is a
match exactly when some closing brace stands after the first opening
brace. -/
def braceMatch (s : String) : Option String :=
  let cs := s.data
  match cs.findIdx? (fun c => c = '{'), cs.reverse.findIdx? (fun c => c = '}') with
  | some i, some k =>
    let j := cs.length - 1 - k
    if i < j then some (String.mk ((cs.take (j + 1)).drop i)) else none
  | _, _ => none

/-- `response.substring(0, 500)`. -/
def takeStr (s : String) (n : Nat) : String := String.mk (s.data.take n)

/-- What `_parseJsonResponse` returns: a parsed object, or the fallback
structure with `error` and `raw_response` fields. -/
inductive ParseOutcome where
  | parsed (v : JsonValue)
  | fallback (error : String) (raw_response : String)

/-- `_parseJsonResponse(response)`: match the greedy brace regex; parse the
matched span; on a missing match return the "Could not parse response"
fallback, and on a JSON.parse exception the catch returns the "JSON parse
error" fallback — in both cases with the first 500 characters of the
response. The function itself never throws. -/
def parseJsonResponse (response : String) : ParseOutcome :=
  match braceMatch response with
  | some sub =>
    match jsonParse sub with
    | some v => .parsed v
    | none => .fallback "JSON parse error" (takeStr response 500)
  | none => .fallback "Could not parse response" (takeStr response 500)

/-- Modelled from the spec's words, not from the code: the parse of the
first top-level JSON object substring of the text — the earliest position
holding an opening brace from which some substring parses as JSON (the
shortest such substring at that position). -/
def specFirstTopLevelObjectParse (s : String) : Option JsonValue :=
  (List.range s.data.length).findSome? (fun i =>
    match s.data.drop i with
    | c :: r =>
      if c = '{' then
        (List.range (r.length + 1)).findSome?
          (fun j => jsonParse (String.mk (c :: r.take j)))
      else none
    | [] => none)

/-- A response holding two disjoint JSON objects: the greedy regex spans
from the first brace to the last and the span is not valid JSON. -/
def cexResponse : String := "\x7b\"a\":1\x7d x \x7b\"b\":2\x7d"

/-- A response holding one JSON object amid prose. -/
def okResponse : String := "note \x7b\"k\":true\x7d end"

/-! ## The Lambda handler (tutorial-generator.js, exports.handler) -/

/-- The outcomes of the handler's fallible steps and its branch switches:
one execution environment of the handler. -/
structure HandlerEnv where
  bodyParses : Bool
  hasGithubUrl : Bool
  uploadToS3 : Bool
  s3InitOk : Bool
  cloneOk : Bool
  extractOk : Bool
  structureOk : Bool
  mainOk : Bool
  analyzeOk : Bool
  llmOk : Bool
  saveOk : Bool
  s3UploadOk : Bool

/-- The observable operations of one handler execution, in order. -/
inductive HandlerOp where
  | parseBody
  | clone
  | extractInfo
  | getStructure
  | getMain
  | readContents
  | analyze
  | genTutorial
  | llmMarkdown
  | saveFiles
  | s3Upload
  | cleanupTemp
  | respond (status : Nat)
deriving DecidableEq, Repr

/-- The handler's straight-line control flow as an operation trace: parse
the body, validate github_url (400 when missing), construct the uploader
(its constructor throws without a bucket), clone, extract the repo info,
walk twice, read contents (never throws), analyze, build the tutorial
data, render via the model, then save and upload when upload_to_s3, and
answer 200; every thrown error lands in the single catch, which answers
500. No branch invokes `GitHubClient.cleanup`. -/
def handlerTrace (env : HandlerEnv) : List HandlerOp :=
  if !env.bodyParses then [.parseBody, .respond 500]
  else if !env.hasGithubUrl then [.parseBody, .respond 400]
  else if env.uploadToS3 && !env.s3InitOk then [.parseBody, .respond 500]
  else [.parseBody, .clone] ++
    (if !env.cloneOk then [.respond 500]
     else [.extractInfo] ++
      (if !env.extractOk then [.respond 500]
       else [.getStructure] ++
        (if !env.structureOk then [.respond 500]
         else [.getMain] ++
          (if !env.mainOk then [.respond 500]
           else [.readContents, .analyze] ++
            (if !env.analyzeOk then [.respond 500]
             else [.genTutorial, .llmMarkdown] ++
              (if !env.llmOk then [.respond 500]
               else if env.uploadToS3 then
                [.saveFiles] ++
                  (if !env.saveOk then [.respond 500]
                   else [.s3Upload] ++
                    (if !env.s3UploadOk then [.respond 500]
                     else [.respond 200]))
               else [.respond 200]))))))

/-- The environment in which every step succeeds and upload is on. -/
def allOkEnv : HandlerEnv :=
  ⟨true, true, true, true, true, true, true, true, true, true, true, true⟩

/-! ## The test scenario of the specification (section 8) -/

/-- Root with index.js (500 B), node_modules/foo.js, image.png and
README.md (200 B). -/
def scenarioTree : FSNodes :=
  .cons (.file "index.js" 500 "console.log(42);")
    (.cons (.dir "node_modules" (.cons (.file "foo.js" 10 "x") .nil))
      (.cons (.file "image.png" 1234 "PNG")
        (.cons (.file "README.md" 200 "# AutoTutor demo") .nil)))

/-- The same scenario as the content loader's file view. -/
def scenarioFs : String → FileView := fun p =>
  if p = "index.js" then .present 500 "console.log(42);"
  else if p = "node_modules/foo.js" then .present 10 "x"
  else if p = "image.png" then .present 1234 "PNG"
  else if p = "README.md" then .present 200 "# AutoTutor demo"
  else .absent

/-! ## Helper lemmas: the stable sort -/

theorem mem_insertByScoreDesc (x y : String) (l : List String) :
    y ∈ insertByScoreDesc x l ↔ y = x ∨ y ∈ l := by
  induction l with
  | nil => simp [insertByScoreDesc]
  | cons z zs ih =>
    simp only [insertByScoreDesc]
    split
    · simp [List.mem_cons]
    · simp only [List.mem_cons, ih]
      tauto

theorem perm_insertByScoreDesc (x : String) (l : List String) :
    List.Perm (insertByScoreDesc x l) (x :: l) := by
  induction l with
  | nil => simp [insertByScoreDesc]
  | cons z zs ih =>
    simp only [insertByScoreDesc]
    split
    · exact List.Perm.refl _
    · exact (ih.cons z).trans (List.Perm.swap x z zs)

theorem pairwise_insertByScoreDesc (x : String) (l : List String)
    (hl : l.Pairwise (fun a b => getFileImportance b ≤ getFileImportance a)) :
    (insertByScoreDesc x l).Pairwise
      (fun a b => getFileImportance b ≤ getFileImportance a) := by
  induction l with
  | nil => simp [insertByScoreDesc]
  | cons z zs ih =>
    rw [List.pairwise_cons] at hl
    simp only [insertByScoreDesc]
    split
    · rename_i hle
      refine List.pairwise_cons.mpr ⟨?_, List.pairwise_cons.mpr hl⟩
      intro y hy
      rcases List.mem_cons.mp hy with rfl | hy2
      · exact hle
      · exact le_trans (hl.1 y hy2) hle
    · rename_i hgt
      refine List.pairwise_cons.mpr ⟨?_, ih hl.2⟩
      intro y hy
      rcases (mem_insertByScoreDesc x y zs).mp hy with rfl | hy2
      · omega
      · exact hl.1 y hy2

theorem sortByScoreDesc_perm (l : List String) :
    List.Perm (sortByScoreDesc l) l := by
  induction l with
  | nil => exact List.Perm.refl _
  | cons x xs ih =>
    exact (perm_insertByScoreDesc x (sortByScoreDesc xs)).trans (ih.cons x)

theorem sortByScoreDesc_pairwise (l : List String) :
    (sortByScoreDesc l).Pairwise
      (fun a b => getFileImportance b ≤ getFileImportance a) := by
  induction l with
  | nil => simp [sortByScoreDesc]
  | cons x xs ih => exact pairwise_insertByScoreDesc x (sortByScoreDesc xs) ih

theorem filter_insertByScoreDesc (x : String) (l : List String) (s : Nat) :
    (insertByScoreDesc x l).filter (fun p => getFileImportance p == s)
      = if getFileImportance x == s then
          x :: l.filter (fun p => getFileImportance p == s)
        else l.filter (fun p => getFileImportance p == s) := by
  induction l with
  | nil =>
    by_cases hx : getFileImportance x = s <;>
      simp [insertByScoreDesc, List.filter_cons, hx]
  | cons z zs ih =>
    simp only [insertByScoreDesc]
    split
    · by_cases hx : getFileImportance x = s <;> simp [List.filter_cons, hx]
    · rename_i hgt
      by_cases hx : getFileImportance x = s
      · have hz : ¬ getFileImportance z = s := by omega
        simp [List.filter_cons, hx, hz, ih]
      · by_cases hz : getFileImportance z = s <;>
          simp [List.filter_cons, hx, hz, ih]

theorem sortByScoreDesc_filter (l : List String) (s : Nat) :
    (sortByScoreDesc l).filter (fun p => getFileImportance p == s)
      = l.filter (fun p => getFileImportance p == s) := by
  induction l with
  | nil => rfl
  | cons x xs ih =>
    simp only [sortByScoreDesc, filter_insertByScoreDesc, ih, List.filter_cons]

/-! ## Helper lemmas: the walk against its accumulator-free description -/

theorem bumpAll_append (ls : Langs) (a b : List String) :
    bumpAll ls (a ++ b) = bumpAll (bumpAll ls a) b := by
  simp [bumpAll, List.foldl_append]

theorem walkDirectory_spec (ig : String → Bool) :
    ∀ (nodes : FSNodes) (rel : String) (fs : List FileEntry) (ls : Langs),
      walkDirectory ig rel nodes (fs, ls)
        = (fs ++ filesOf ig rel nodes, bumpAll ls (langsOf ig rel nodes))
  | .nil, rel, fs, ls => by simp [walkDirectory, filesOf, langsOf, bumpAll]
  | .cons n rest, rel, fs, ls => by
    cases n with
    | badStat nm =>
      by_cases hig : ig (joinRel rel nm)
      · simp only [walkDirectory, filesOf, langsOf, nodeName, hig, if_true]
        exact walkDirectory_spec ig rest rel fs ls
      · simp [walkDirectory, filesOf, langsOf, nodeName, hig, bumpAll]
    | file nm sz ct =>
      by_cases hig : ig (joinRel rel nm)
      · simp only [walkDirectory, filesOf, langsOf, nodeName, hig, if_true]
        exact walkDirectory_spec ig rest rel fs ls
      · simp only [walkDirectory, filesOf, langsOf, nodeName, hig, if_false]
        cases hl : getLanguageFromExtension (lowerStr (extname nm)) with
        | none =>
          simp only [hl]
          rw [walkDirectory_spec ig rest rel (fs ++ [mkEntry nm rel (joinRel rel nm) sz]) ls]
          simp [bumpAll]
        | some lang =>
          simp only [hl]
          rw [walkDirectory_spec ig rest rel (fs ++ [mkEntry nm rel (joinRel rel nm) sz])
            (bumpLang ls lang)]
          simp [bumpAll]
    | dir nm sub =>
      by_cases hig : ig (joinRel rel nm)
      · simp only [walkDirectory, filesOf, langsOf, nodeName, hig, if_true]
        exact walkDirectory_spec ig rest rel fs ls
      · simp only [walkDirectory, filesOf, langsOf, nodeName, hig, if_false]
        rw [walkDirectory_spec ig sub (joinRel rel nm) fs ls]
        rw [walkDirectory_spec ig rest rel (fs ++ filesOf ig (joinRel rel nm) sub)
          (bumpAll ls (langsOf ig (joinRel rel nm) sub))]
        simp [bumpAll_append, List.append_assoc]
termination_by nodes => sizeNodes nodes
decreasing_by all_goals (simp [sizeNodes, sizeNode] <;> omega)

/-! ## Helper lemmas: paths and the ignore invariant of the walk -/

theorem strExt {a b : String} (h : a.data = b.data) : a = b := congrArg String.mk h

theorem data_append3 (q r : String) :
    (q ++ "/" ++ r).data = q.data ++ '/' :: r.data := by
  rw [String.data_append, String.data_append]
  simp

theorem wfName_no_slash {n : String} (h : wfName n = true) : '/' ∉ n.data := by
  simp only [wfName, decide_eq_true_eq] at h
  exact h.2

theorem sep_decomp {x : Char} {A B C D : List Char} (hB : x ∉ B)
    (h : A ++ x :: B = C ++ x :: D) :
    (C = A ∧ D = B) ∨ ∃ E, A = C ++ x :: E ∧ D = E ++ x :: B := by
  rcases List.append_eq_append_iff.mp h with ⟨e, hC, hBD⟩ | ⟨e, hA, hD⟩
  · cases e with
    | nil =>
      left
      refine ⟨by simpa using hC, ?_⟩
      simpa using hBD.symm
    | cons y es =>
      exfalso
      simp only [List.cons_append] at hBD
      obtain ⟨rfl, hB2⟩ : x = y ∧ B = es ++ x :: D := by
        constructor
        · exact (List.cons.injEq _ _ _ _ ▸ hBD).1
        · exact (List.cons.injEq _ _ _ _ ▸ hBD).2
      exact hB (hB2 ▸ List.mem_append_right es (List.mem_cons_self x D))
  · cases e with
    | nil =>
      left
      refine ⟨by simpa using hA.symm, ?_⟩
      simpa using hD
    | cons y es =>
      right
      simp only [List.cons_append] at hD
      obtain ⟨rfl, hD2⟩ : x = y ∧ D = es ++ x :: B := by
        constructor
        · exact (List.cons.injEq _ _ _ _ ▸ hD).1
        · exact (List.cons.injEq _ _ _ _ ▸ hD).2
      exact ⟨es, hA, hD2⟩

theorem joinRel_decomp (rel name q r : String) (hname : '/' ∉ name.data)
    (h : joinRel rel name = q ++ "/" ++ r) :
    (rel ≠ "" ∧ q = rel ∧ r = name) ∨ ∃ rr : String, rel = q ++ "/" ++ rr := by
  unfold joinRel at h
  split at h
  · exfalso
    apply hname
    have hd := congrArg String.data h
    rw [data_append3] at hd
    rw [hd]
    exact List.mem_append_right _ (List.mem_cons_self '/' r.data)
  · rename_i hrel
    have hd : rel.data ++ '/' :: name.data = q.data ++ '/' :: r.data := by
      have h2 := congrArg String.data h
      rw [data_append3, data_append3] at h2
      exact h2
    rcases sep_decomp hname hd with ⟨hq, hr⟩ | ⟨E, hA, _⟩
    · left
      exact ⟨hrel, strExt hq, strExt hr⟩
    · right
      refine ⟨String.mk E, strExt ?_⟩
      rw [data_append3]
      exact hA

theorem bool_false_of_not {b : Bool} (h : ¬ b = true) : b = false := by
  simpa using h

theorem wfNode_dir {nm : String} {sub : FSNodes}
    (h : wfNode (.dir nm sub) = true) : wfName nm = true ∧ wfNodes sub = true := by
  simpa [wfNode, Bool.and_eq_true] using h

theorem wfNodes_cons {n : FSNode} {rest : FSNodes}
    (h : wfNodes (.cons n rest) = true) : wfNode n = true ∧ wfNodes rest = true := by
  simpa [wfNodes, Bool.and_eq_true] using h

theorem sizeNode_pos (n : FSNode) : 1 ≤ sizeNode n := by
  cases n <;> simp [sizeNode]

theorem filesOf_ignore (ig : String → Bool) :
    ∀ (nodes : FSNodes) (rel : String),
      wfNodes nodes = true →
      (rel ≠ "" → ig rel = false) →
      (∀ q r : String, rel = q ++ "/" ++ r → ig q = false) →
      ∀ e ∈ filesOf ig rel nodes,
        ig e.path = false ∧ ∀ q r : String, e.path = q ++ "/" ++ r → ig q = false
  | .nil, rel, _, _, _ => by simp [filesOf]
  | .cons (.badStat nm) rest, rel, hwf, hrel, hpre => by
    obtain ⟨hwfn, hwfrest⟩ := wfNodes_cons hwf
    by_cases hig : ig (joinRel rel nm)
    · simp only [filesOf, nodeName, hig, if_true]
      exact filesOf_ignore ig rest rel hwfrest hrel hpre
    · simp [filesOf, nodeName, hig]
  | .cons (.file nm sz ct) rest, rel, hwf, hrel, hpre => by
    obtain ⟨hwfn, hwfrest⟩ := wfNodes_cons hwf
    have hname : '/' ∉ nm.data := wfName_no_slash (by simpa [wfNode] using hwfn)
    by_cases hig : ig (joinRel rel nm)
    · simp only [filesOf, nodeName, hig, if_true]
      exact filesOf_ignore ig rest rel hwfrest hrel hpre
    · simp only [filesOf, nodeName, hig, if_false]
      intro e he
      rcases List.mem_cons.mp he with rfl | he2
      · refine ⟨by simpa [mkEntry] using bool_false_of_not hig, ?_⟩
        intro q r hqr
        simp only [mkEntry] at hqr
        rcases joinRel_decomp rel nm q r hname hqr with ⟨hne, rfl, _⟩ | ⟨rr, hdec⟩
        · exact hrel hne
        · exact hpre q rr hdec
      · exact filesOf_ignore ig rest rel hwfrest hrel hpre e he2
  | .cons (.dir nm sub) rest, rel, hwf, hrel, hpre => by
    obtain ⟨hwfn, hwfrest⟩ := wfNodes_cons hwf
    obtain ⟨hnm, hwfsub⟩ := wfNode_dir hwfn
    have hname : '/' ∉ nm.data := wfName_no_slash hnm
    by_cases hig : ig (joinRel rel nm)
    · simp only [filesOf, nodeName, hig, if_true]
      exact filesOf_ignore ig rest rel hwfrest hrel hpre
    · simp only [filesOf, nodeName, hig, if_false]
      intro e he
      rcases List.mem_append.mp he with hsub | hrest2
      · refine filesOf_ignore ig sub (joinRel rel nm) hwfsub
          (fun _ => bool_false_of_not hig) ?_ e hsub
        intro q r hqr
        rcases joinRel_decomp rel nm q r hname hqr with ⟨hne, rfl, _⟩ | ⟨rr, hdec⟩
        · exact hrel hne
        · exact hpre q rr hdec
      · exact filesOf_ignore ig rest rel hwfrest hrel hpre e hrest2
termination_by nodes => sizeNodes nodes
decreasing_by all_goals (simp [sizeNodes, sizeNode] <;> omega)

theorem walkVisited_not_ignored (ig : String → Bool) :
    ∀ (nodes : FSNodes) (rel : String), ∀ d ∈ walkVisited ig rel nodes, ig d = false
  | .nil, rel => by simp [walkVisited]
  | .cons n rest, rel => by
    cases n with
    | badStat nm =>
      by_cases hig : ig (joinRel rel nm)
      · simp only [walkVisited, nodeName, hig, if_true]
        exact walkVisited_not_ignored ig rest rel
      · simp [walkVisited, nodeName, hig]
    | file nm sz ct =>
      by_cases hig : ig (joinRel rel nm)
      · simp only [walkVisited, nodeName, hig, if_true]
        exact walkVisited_not_ignored ig rest rel
      · simp only [walkVisited, nodeName, hig, if_false]
        exact walkVisited_not_ignored ig rest rel
    | dir nm sub =>
      by_cases hig : ig (joinRel rel nm)
      · simp only [walkVisited, nodeName, hig, if_true]
        exact walkVisited_not_ignored ig rest rel
      · simp only [walkVisited, nodeName, hig, if_false]
        intro d hd
        rcases List.mem_cons.mp hd with rfl | hd2
        · exact bool_false_of_not hig
        · rcases List.mem_append.mp hd2 with hs | hr
          · exact walkVisited_not_ignored ig sub (joinRel rel nm) d hs
          · exact walkVisited_not_ignored ig rest rel d hr
termination_by nodes => sizeNodes nodes
decreasing_by all_goals (simp [sizeNodes, sizeNode] <;> omega)

/-! ## Helper lemmas: the abort semantics of a failed stat -/

theorem walk_badStat_abort (ig : String → Bool) (rel name : String) (post : FSNodes)
    (h : ig (joinRel rel name) = false) :
    ∀ (pre : FSNodes) (acc : List FileEntry × Langs),
      walkDirectory ig rel (appFS pre (.cons (.badStat name) post)) acc
        = walkDirectory ig rel pre acc
  | .nil, acc => by simp [appFS, walkDirectory, nodeName, h]
  | .cons n rest, acc => by
    cases n with
    | badStat nm =>
      by_cases hig : ig (joinRel rel nm)
      · simp only [appFS, walkDirectory, nodeName, hig, if_true]
        exact walk_badStat_abort ig rel name post h rest acc
      · simp [appFS, walkDirectory, nodeName, hig]
    | file nm sz ct =>
      by_cases hig : ig (joinRel rel nm)
      · simp only [appFS, walkDirectory, nodeName, hig, if_true]
        exact walk_badStat_abort ig rel name post h rest acc
      · simp only [appFS, walkDirectory, nodeName, hig, if_false]
        exact walk_badStat_abort ig rel name post h rest _
    | dir nm sub =>
      by_cases hig : ig (joinRel rel nm)
      · simp only [appFS, walkDirectory, nodeName, hig, if_true]
        exact walk_badStat_abort ig rel name post h rest acc
      · simp only [appFS, walkDirectory, nodeName, hig, if_false]
        exact walk_badStat_abort ig rel name post h rest _

theorem walk_congr_subtree (ig : String → Bool) (prel dname : String)
    (sub1 sub2 : FSNodes)
    (hsub : ∀ acc, walkDirectory ig (joinRel prel dname) sub1 acc
      = walkDirectory ig (joinRel prel dname) sub2 acc) :
    ∀ (before : FSNodes) (after : FSNodes) (acc : List FileEntry × Langs),
      walkDirectory ig prel (appFS before (.cons (.dir dname sub1) after)) acc
        = walkDirectory ig prel (appFS before (.cons (.dir dname sub2) after)) acc
  | .nil, after, acc => by
    by_cases hig : ig (joinRel prel dname)
    · simp [appFS, walkDirectory, nodeName, hig]
    · simp only [appFS, walkDirectory, nodeName, hig, if_false]
      rw [hsub acc]
  | .cons n rest, after, acc => by
    cases n with
    | badStat nm =>
      by_cases hig : ig (joinRel prel nm)
      · simp only [appFS, walkDirectory, nodeName, hig, if_true]
        exact walk_congr_subtree ig prel dname sub1 sub2 hsub rest after acc
      · simp [appFS, walkDirectory, nodeName, hig]
    | file nm sz ct =>
      by_cases hig : ig (joinRel prel nm)
      · simp only [appFS, walkDirectory, nodeName, hig, if_true]
        exact walk_congr_subtree ig prel dname sub1 sub2 hsub rest after acc
      · simp only [appFS, walkDirectory, nodeName, hig, if_false]
        exact walk_congr_subtree ig prel dname sub1 sub2 hsub rest after _
    | dir nm sub =>
      by_cases hig : ig (joinRel prel nm)
      · simp only [appFS, walkDirectory, nodeName, hig, if_true]
        exact walk_congr_subtree ig prel dname sub1 sub2 hsub rest after acc
      · simp only [appFS, walkDirectory, nodeName, hig, if_false]
        exact walk_congr_subtree ig prel dname sub1 sub2 hsub rest after _

/-! ## Helper lemma: the handler loop never maps a path to the empty string -/

theorem buildFileContents_no_empty (fsv : String → FileView) :
    ∀ (l : List String) (acc : List (String × String)),
      (∀ pr ∈ acc, pr.2 ≠ "") →
      ∀ pr ∈ l.foldl
        (fun acc2 fp =>
          match readFileContent fsv fp 50000 with
          | some c => if c = "" then acc2 else acc2 ++ [(fp, c)]
          | none => acc2) acc, pr.2 ≠ "" := by
  intro l
  induction l with
  | nil => intro acc hacc pr hpr; exact hacc pr hpr
  | cons fp rest ih =>
    intro acc hacc pr hpr
    simp only [List.foldl_cons] at hpr
    refine ih _ ?_ pr hpr
    cases hr : readFileContent fsv fp 50000 with
    | none => simpa [hr] using hacc
    | some c =>
      by_cases hc : c = ""
      · simpa [hr, hc] using hacc
      · simp only [hr, hc, if_false]
        intro pr2 hpr2
        rcases List.mem_append.mp hpr2 with hin | hone
        · exact hacc pr2 hin
        · rcases List.mem_singleton.mp hone with rfl
          exact hc

/-! # The claims -/

/-- Claim C1: the specification's resource contract requires the handler to
invoke the temporary-directory cleanup (remove-if-exists) exactly once on
every exit path that reaches the clone step. The handler never invokes
`GitHubClient.cleanup`: on every execution environment the trace holds
zero cleanup operations — also on the all-success environment, whose trace
does reach the clone step — so the count is 0 where the claim requires 1. -/
theorem handler_never_invokes_cleanup :
    (∀ env : HandlerEnv, (handlerTrace env).count HandlerOp.cleanupTemp = 0)
    ∧ HandlerOp.clone ∈ handlerTrace allOkEnv
    ∧ (handlerTrace allOkEnv).count HandlerOp.cleanupTemp = 0 := by
  refine ⟨?_, by decide, by decide⟩
  intro env
  obtain ⟨b1, b2, b3, b4, b5, b6, b7, b8, b9, b10, b11, b12⟩ := env
  cases b1 <;> cases b2 <;> cases b3 <;> cases b4 <;> cases b5 <;> cases b6 <;>
    cases b7 <;> cases b8 <;> cases b9 <;> cases b10 <;> cases b11 <;>
    cases b12 <;> rfl

/-- Claim C2, counterexample: on a response holding two disjoint JSON
objects, the first top-level object substring parses (to the object with
field a holding 1), but `_parseJsonResponse` returns the JSON-parse-error
fallback, because the greedy regex spans from the first brace to the last
brace of the whole text and that span is not valid JSON. So the parser
does not return the parse of the first top-level object. -/
theorem parseJsonResponse_not_first_object :
    parseJsonResponse cexResponse
        = .fallback "JSON parse error" (takeStr cexResponse 500)
    ∧ specFirstTopLevelObjectParse cexResponse
        = some (.obj [("a", .num "1")])
    ∧ parseJsonResponse cexResponse ≠ .parsed (.obj [("a", .num "1")]) := by
  refine ⟨rfl, rfl, fun h => ?_⟩
  exact ParseOutcome.noConfusion
    (show ParseOutcome.fallback "JSON parse error" (takeStr cexResponse 500)
        = ParseOutcome.parsed (.obj [("a", .num "1")]) from h)

/-- Claim C2 as amended: the parser matches greedily from the first opening
brace to the last closing brace of the response (not the first top-level
object); when that whole span is valid JSON it returns its parse, and
otherwise — a failing parse, or no such span — it returns the fallback
structure whose raw_response field holds the first 500 characters of the
response; being a total function, it never throws. -/
theorem parseJsonResponse_greedy_span (s : String) :
    (braceMatch s = none →
      parseJsonResponse s = .fallback "Could not parse response" (takeStr s 500))
    ∧ (∀ sub v, braceMatch s = some sub → jsonParse sub = some v →
        parseJsonResponse s = .parsed v)
    ∧ (∀ sub, braceMatch s = some sub → jsonParse sub = none →
        parseJsonResponse s = .fallback "JSON parse error" (takeStr s 500)) := by
  refine ⟨?_, ?_, ?_⟩
  · intro h
    simp [parseJsonResponse, h]
  · intro sub v h1 h2
    simp [parseJsonResponse, h1, h2]
  · intro sub h1 h2
    simp [parseJsonResponse, h1, h2]

/-- Witness for the amended C2: a response with one object amid prose
parses to that object, through the theorem's success case. -/
theorem parseJsonResponse_greedy_span_witness :
    parseJsonResponse okResponse = .parsed (.obj [("k", .bool true)]) :=
  (parseJsonResponse_greedy_span okResponse).2.1
    "\x7b\"k\":true\x7d" (.obj [("k", .bool true)]) rfl rfl

/-- Claim C3: on the scenario tree (index.js 500 B, node_modules/foo.js,
image.png, README.md 200 B) the walk under the default matcher yields
total_files 3 and the histogram with JavaScript alone at 1; the ranking
yields README.md, index.js, image.png with scores 100, 80, 10; and the
content map holds exactly README.md and index.js (image.png absent by the
binary rule, node_modules/foo.js excluded by the default pattern). -/
theorem scenario_walk_rank_contents :
    (getFileStructure defaultIg scenarioTree).total_files = 3
    ∧ (getFileStructure defaultIg scenarioTree).languages = [("JavaScript", 1)]
    ∧ getMainFiles defaultIg scenarioTree = ["README.md", "index.js", "image.png"]
    ∧ getFileImportance "README.md" = 100
    ∧ getFileImportance "index.js" = 80
    ∧ getFileImportance "image.png" = 10
    ∧ (buildFileContents scenarioFs (getMainFiles defaultIg scenarioTree)).map
        Prod.fst = ["README.md", "index.js"] :=
  ⟨rfl, rfl, rfl, rfl, rfl, rfl, rfl⟩

/-- Claim C4: for every input list of paths the ranking's sort is a
permutation of the input (every input path appears in the full untruncated
sorted order), is descending in the importance score, keeps equal-score
paths in input order (the filter at each score value is unchanged), and
the returned list is its 20-prefix, hence of length at most 20 and itself
descending; `getMainFiles` is exactly this ranking applied to the walked
paths. -/
theorem rank_sorted_stable_complete (l : List String) :
    ((sortByScoreDesc l).take 20).length ≤ 20
    ∧ ((sortByScoreDesc l).take 20).Pairwise
        (fun a b => getFileImportance b ≤ getFileImportance a)
    ∧ List.Perm (sortByScoreDesc l) l
    ∧ (∀ p, p ∈ l → p ∈ sortByScoreDesc l)
    ∧ (∀ s : Nat,
        (sortByScoreDesc l).filter (fun p => getFileImportance p == s)
          = l.filter (fun p => getFileImportance p == s))
    ∧ ∀ (ig : String → Bool) (t : FSNodes),
        getMainFiles ig t
          = (sortByScoreDesc
              (((walkDirectory ig "" t ([], [])).1).map (fun f => f.path))).take 20 := by
  refine ⟨?_, ?_, sortByScoreDesc_perm l, ?_, sortByScoreDesc_filter l, ?_⟩
  · simp [List.length_take]
  · exact (sortByScoreDesc_pairwise l).sublist (List.take_sublist 20 _)
  · intro p hp
    exact (sortByScoreDesc_perm l).mem_iff.mpr hp
  · intro ig t
    rfl

/-- Witness for C4: a path of the scenario input appears in the full
sorted order, through the theorem's completeness case. -/
theorem rank_sorted_stable_complete_witness :
    "image.png" ∈ sortByScoreDesc
      (((walkDirectory defaultIg "" scenarioTree ([], [])).1).map (fun f => f.path)) :=
  (rank_sorted_stable_complete
    (((walkDirectory defaultIg "" scenarioTree ([], [])).1).map (fun f => f.path))).2.2.2.1
    "image.png" (by decide)

/-- Claim C5: the content loader returns absent — never an exception — when
the file does not exist, when its stat size strictly exceeds maxSizeBytes,
when any stat/read error occurs, and when the lowercased extension is in
the closed binary set; the binary case yields absent regardless of size or
existence (it holds under every file view). -/
theorem readFileContent_absent_cases (fsv : String → FileView) (p : String) (m : Nat) :
    (fsv p = .absent → readFileContent fsv p m = none)
    ∧ (fsv p = .readFail → readFileContent fsv p m = none)
    ∧ (∀ sz c, fsv p = .present sz c → m < sz → readFileContent fsv p m = none)
    ∧ (isBinaryFile p = true → readFileContent fsv p m = none) := by
  refine ⟨?_, ?_, ?_, ?_⟩
  · intro h
    simp [readFileContent, h]
  · intro h
    simp [readFileContent, h]
  · intro sz c h hlt
    simp [readFileContent, h, hlt]
  · intro hb
    cases hv : fsv p with
    | absent => simp [readFileContent, hv]
    | readFail => simp [readFileContent, hv]
    | present sz c =>
      by_cases hsz : m < sz <;> simp [readFileContent, hv, hb, hsz]

/-- Witness for C5: image.png is loaded as absent although it exists and is
small, through the theorem's binary-extension case. -/
theorem readFileContent_absent_cases_witness :
    readFileContent scenarioFs "image.png" 50000 = none :=
  (readFileContent_absent_cases scenarioFs "image.png" 50000).2.2.2 rfl

/-- Claim C6: on a well-formed tree the walk never recurses into a
directory whose relative path the matcher ignores (every visited directory
tests false), and never records a file whose own relative path, or the
relative path of any ancestor directory (any prefix of the path cut at a
slash), the matcher ignores. -/
theorem walk_respects_ignores (ig : String → Bool) (t : FSNodes)
    (hwf : wfNodes t = true) :
    (∀ d ∈ walkVisited ig "" t, ig d = false)
    ∧ ∀ e ∈ (walkDirectory ig "" t ([], [])).1,
        ig e.path = false
          ∧ ∀ q r : String, e.path = q ++ "/" ++ r → ig q = false := by
  refine ⟨walkVisited_not_ignored ig t "", ?_⟩
  intro e he
  rw [walkDirectory_spec ig t "" [] []] at he
  simp only [List.nil_append] at he
  refine filesOf_ignore ig t "" hwf (fun h => absurd rfl h) ?_ e he
  intro q r hqr
  exfalso
  have h2 := congrArg String.data hqr
  rw [data_append3] at h2
  simp at h2

/-- Witness for C6: the recorded scenario file index.js is not ignored,
through the theorem applied to the scenario tree. -/
theorem walk_respects_ignores_witness :
    defaultIg "index.js" = false :=
  ((walk_respects_ignores defaultIg scenarioTree (by decide)).2
    (mkEntry "index.js" "" "index.js" 500) (by decide)).1

/-- Claim C7: total_files is the length of the full uncapped matched-file
list, the files sequence is exactly its first 100 entries in encounter
order with no sorting, and the ranking entry point hands the ranker the
complete uncapped path set. -/
theorem traversal_uncapped_total_capped_files (ig : String → Bool) (t : FSNodes) :
    (getFileStructure ig t).total_files = (filesOf ig "" t).length
    ∧ (getFileStructure ig t).files = (filesOf ig "" t).take 100
    ∧ getMainFiles ig t
        = (sortByScoreDesc ((filesOf ig "" t).map (fun f => f.path))).take 20 := by
  have h := walkDirectory_spec ig t "" [] []
  refine ⟨?_, ?_, ?_⟩ <;> simp [getFileStructure, getMainFiles, h]

/-- Claim C8: the walk is a deterministic function of the unchanged tree:
two calls of the method on the same client state (which the method never
mutates, and whose accumulators are freshly allocated per call) return
identical total_files, identical histogram and identical capped file list. -/
theorem walk_twice_identical (c : GitHubClient) (ig : String → Bool)
    (r1 r2 : TraversalResult)
    (h1 : clientGetFileStructure c ig = .ok r1)
    (h2 : clientGetFileStructure c ig = .ok r2) :
    r1.total_files = r2.total_files ∧ r1.languages = r2.languages
      ∧ r1.files = r2.files := by
  obtain rfl : r1 = r2 := Except.ok.inj (h1.symm.trans h2)
  exact ⟨rfl, rfl, rfl⟩

/-- Witness for C8: the two calls on the scenario client agree, through
the theorem at the concrete state. -/
theorem walk_twice_identical_witness :
    (getFileStructure defaultIg scenarioTree).total_files
      = (getFileStructure defaultIg scenarioTree).total_files :=
  (walk_twice_identical ⟨some scenarioTree⟩ defaultIg
    (getFileStructure defaultIg scenarioTree)
    (getFileStructure defaultIg scenarioTree) rfl rfl).1

/-- Claim C9: an existing zero-byte file that is not binary-extensioned
and within the ceiling loads as the empty string, yet the handler's
truthiness test treats the empty string like an absent result, so the
content map never maps any path to the empty string. -/
theorem contentMap_never_empty_string (fsv : String → FileView) (p : String)
    (hp : fsv p = .present 0 "") (hb : isBinaryFile p = false) :
    readFileContent fsv p 50000 = some ""
    ∧ ∀ (files : List String) (pr : String × String),
        pr ∈ buildFileContents fsv files → pr.2 ≠ "" := by
  constructor
  · simp [readFileContent, hp, hb]
  · intro files pr hpr
    exact buildFileContents_no_empty fsv (files.take 50) [] (by simp) pr hpr

/-- Witness for C9: a concrete view holding only a zero-byte file, through
the theorem at that view. -/
theorem contentMap_never_empty_string_witness :
    readFileContent (fun _ => FileView.present 0 "") "empty.txt" 50000 = some "" :=
  (contentMap_never_empty_string (fun _ => FileView.present 0 "") "empty.txt"
    rfl rfl).1

/-- Claim C10: when the stat of one (unignored) entry fails, the walk of
that directory equals the walk of only the entries before the failing one:
the failing entry and all remaining siblings are dropped while everything
already processed stays; and a parent directory's traversal is unaffected
beyond that — walking the parent with the truncated child equals walking
it with the original child, whatever stands before or after it. -/
theorem walk_statFailure_skips_rest (ig : String → Bool) :
    (∀ (rel name : String) (pre post : FSNodes) (acc : List FileEntry × Langs),
      ig (joinRel rel name) = false →
      walkDirectory ig rel (appFS pre (.cons (.badStat name) post)) acc
        = walkDirectory ig rel pre acc)
    ∧ ∀ (prel dname name : String) (pre post before after : FSNodes)
        (acc : List FileEntry × Langs),
        ig (joinRel (joinRel prel dname) name) = false →
        walkDirectory ig prel
            (appFS before
              (.cons (.dir dname (appFS pre (.cons (.badStat name) post))) after)) acc
          = walkDirectory ig prel (appFS before (.cons (.dir dname pre) after)) acc := by
  constructor
  · intro rel name pre post acc h
    exact walk_badStat_abort ig rel name post h pre acc
  · intro prel dname name pre post before after acc h
    exact walk_congr_subtree ig prel dname _ pre
      (fun acc2 => walk_badStat_abort ig (joinRel prel dname) name post h pre acc2)
      before after acc

/-- Witness for C10: a concrete directory with one good file, then a
failing stat, then another file: the walk equals the walk of the prefix. -/
theorem walk_statFailure_skips_rest_witness :
    walkDirectory (fun _ => false) ""
        (appFS (.cons (.file "a.js" 1 "x") .nil)
          (.cons (.badStat "bad") (.cons (.file "z.js" 1 "y") .nil))) ([], [])
      = walkDirectory (fun _ => false) "" (.cons (.file "a.js" 1 "x") .nil) ([], []) :=
  (walk_statFailure_skips_rest (fun _ => false)).1 "" "bad"
    (.cons (.file "a.js" 1 "x") .nil) (.cons (.file "z.js" 1 "y") .nil)
    ([], []) rfl
